import Mathlib

/-!
Verification of the SayWith Manager record-synchronization workflows.

Text content is modelled as `List Char`.  The JavaScript
`String.prototype.replace` with a global literal-pattern regex is modelled by
`replaceAll`: a left-to-right, non-overlapping scan that replaces each
occurrence of the pattern and resumes after the replacement text.
-/

abbrev Text := List Char

/-- The watermark phrase stripped from uploaded subtitle text
(`CreateForm.tsx` line 156, `page.tsx` edit revision line 295). -/
def watermark : Text :=
  "Transcribed by TurboScribe.ai. Go Unlimited to remove this message".data

/-- The fixed replacement phrase. -/
def replacement : Text := "made by SayWith".data

/-- Fuel-indexed global replace.  With fuel at least the length of the input
this is the JavaScript `s.replace(/pat/g, rep)` for a literal non-empty `pat`:
scan left to right; on a match emit `rep` and continue after the matched
occurrence; otherwise emit one character and continue. -/
def replaceAllF (pat rep : Text) : Nat → Text → Text
  | 0, s => s
  | f + 1, s =>
    match s with
    | [] => []
    | c :: cs =>
      if pat ≠ [] ∧ pat <+: (c :: cs) then
        rep ++ replaceAllF pat rep f ((c :: cs).drop pat.length)
      else
        c :: replaceAllF pat rep f cs

/-- Global replace of `pat` by `rep` (JS `s.replace(/pat/g, rep)`). -/
def replaceAll (pat rep s : Text) : Text := replaceAllF pat rep s.length s

theorem replaceAllF_nil (pat rep : Text) (f : Nat) : replaceAllF pat rep f [] = [] := by
  cases f <;> rfl

theorem replaceAllF_irrel (pat rep : Text) :
    ∀ n (s : Text), s.length ≤ n → ∀ f₁ f₂, s.length ≤ f₁ → s.length ≤ f₂ →
      replaceAllF pat rep f₁ s = replaceAllF pat rep f₂ s := by
  intro n
  induction n with
  | zero =>
    intro s hs f₁ f₂ _ _
    have : s = [] := List.length_eq_zero.mp (Nat.le_zero.mp hs)
    subst this
    rw [replaceAllF_nil, replaceAllF_nil]
  | succ n ih =>
    intro s hs f₁ f₂ h1 h2
    match s with
    | [] => rw [replaceAllF_nil, replaceAllF_nil]
    | c :: cs =>
      have hcs : cs.length + 1 ≤ n + 1 := by simpa using hs
      match f₁, f₂ with
      | g₁ + 1, g₂ + 1 =>
        show replaceAllF pat rep (g₁ + 1) (c :: cs) = replaceAllF pat rep (g₂ + 1) (c :: cs)
        rw [replaceAllF, replaceAllF]
        have hc : cs.length + 1 ≤ n + 1 := by simpa using hs
        have hf1 : cs.length + 1 ≤ g₁ + 1 := by simpa using h1
        have hf2 : cs.length + 1 ≤ g₂ + 1 := by simpa using h2
        by_cases h : pat ≠ [] ∧ pat <+: (c :: cs)
        · rw [if_pos h, if_pos h]
          have hpat : 1 ≤ pat.length := by
            cases hp : pat with
            | nil => exact absurd hp h.1
            | cons a l => simp [hp]
          have hdl : ((c :: cs).drop pat.length).length = cs.length + 1 - pat.length := by
            simp
          rw [ih _ (by rw [hdl]; omega) g₁ g₂ (by rw [hdl]; omega) (by rw [hdl]; omega)]
        · rw [if_neg h, if_neg h]
          rw [ih _ (by omega) g₁ g₂ (by omega) (by omega)]

theorem replaceAll_nil (pat rep : Text) : replaceAll pat rep [] = [] := rfl

theorem replaceAll_pos (pat rep : Text) (c : Char) (cs : Text)
    (h1 : pat ≠ []) (h2 : pat <+: (c :: cs)) :
    replaceAll pat rep (c :: cs) =
      rep ++ replaceAll pat rep ((c :: cs).drop pat.length) := by
  have hpat : 1 ≤ pat.length := by
    cases hp : pat with
    | nil => exact absurd hp h1
    | cons a l => simp [hp]
  show replaceAllF pat rep (cs.length + 1) (c :: cs) = _
  rw [replaceAllF, if_pos ⟨h1, h2⟩]
  congr 1
  exact replaceAllF_irrel pat rep ((c :: cs).drop pat.length).length _ le_rfl _ _
    (by simp only [List.length_drop, List.length_cons]; omega) le_rfl

theorem replaceAll_neg (pat rep : Text) (c : Char) (cs : Text)
    (h : ¬(pat ≠ [] ∧ pat <+: (c :: cs))) :
    replaceAll pat rep (c :: cs) = c :: replaceAll pat rep cs := by
  show replaceAllF pat rep (cs.length + 1) (c :: cs) = _
  rw [replaceAllF, if_neg h]
  rfl

/-! Structural facts about the concrete watermark/replacement pair, checked by
computation: no tail of the watermark aligns with the replacement text and the
replacement text never occurs inside the watermark, so replacing can never
manufacture a fresh occurrence of the watermark. -/

theorem watermark_ne_nil : watermark ≠ [] := by decide

theorem watermark_tail_not_pre_rep :
    ∀ k, k < watermark.length → ¬ watermark.drop k <+: replacement := by decide

theorem rep_not_factor_watermark :
    ∀ k, k < watermark.length → ¬ replacement <+: watermark.drop k := by decide

theorem rep_tail_not_pre_watermark :
    ∀ j, j < replacement.length → ¬ replacement.drop j <+: watermark := by decide

theorem watermark_not_pre_rep_tail :
    ∀ j, j < replacement.length → ¬ watermark <+: replacement.drop j := by decide

/-- A prefix of an append is a prefix of the first part, or extends it. -/
theorem pre_append_cases {α : Type} {x y z : List α} (h : x <+: y ++ z) :
    x <+: y ∨ ∃ x', x = y ++ x' ∧ x' <+: z := by
  induction y generalizing x with
  | nil => exact Or.inr ⟨x, rfl, by simpa using h⟩
  | cons b y' ih =>
    match x with
    | [] => exact Or.inl (List.nil_prefix)
    | a :: x₂ =>
      rw [List.cons_append, List.cons_prefix_cons] at h
      obtain ⟨rfl, h₂⟩ := h
      rcases ih h₂ with h' | ⟨x', rfl, hx'⟩
      · exact Or.inl (List.cons_prefix_cons.mpr ⟨rfl, h'⟩)
      · exact Or.inr ⟨x', rfl, hx'⟩

/-- An occurrence inside an append either starts inside the first part or lies
entirely inside the second. -/
theorem sub_append_cases {α : Type} {x z : List α} (y : List α) (h : x <:+: y ++ z) :
    (∃ k, k < y.length ∧ x <+: y.drop k ++ z) ∨ x <:+: z := by
  induction y with
  | nil => exact Or.inr (by simpa using h)
  | cons b y' ih =>
    rw [List.cons_append, List.infix_cons_iff] at h
    rcases h with h | h
    · exact Or.inl ⟨0, by simp, by simpa using h⟩
    · rcases ih h with ⟨k, hk, hx⟩ | h'
      · exact Or.inl ⟨k + 1, by simpa using hk, by simpa using hx⟩
      · exact Or.inr h'

/-- Key alignment lemma: a tail `watermark.drop k` of the watermark that is a
prefix of the output of `replaceAll` is already a prefix of the input. -/
theorem watermark_tail_pre_of_replaceAll :
    ∀ n (s : Text), s.length ≤ n → ∀ k, k < watermark.length →
      watermark.drop k <+: replaceAll watermark replacement s →
      watermark.drop k <+: s := by
  intro n
  induction n with
  | zero =>
    intro s hs k hk hpre
    have : s = [] := List.length_eq_zero.mp (Nat.le_zero.mp hs)
    subst this
    rw [replaceAll_nil] at hpre
    have : watermark.drop k = [] := List.prefix_nil.mp hpre
    rw [List.drop_eq_nil_iff] at this
    omega
  | succ n ih =>
    intro s hs k hk hpre
    match s with
    | [] =>
      rw [replaceAll_nil] at hpre
      have : watermark.drop k = [] := List.prefix_nil.mp hpre
      rw [List.drop_eq_nil_iff] at this
      omega
    | c :: cs =>
      have hlcs : cs.length ≤ n := by simpa using hs
      by_cases hw : watermark <+: (c :: cs)
      · rw [replaceAll_pos _ _ _ _ watermark_ne_nil hw] at hpre
        rcases pre_append_cases hpre with h | ⟨x', heq, _⟩
        · exact absurd h (watermark_tail_not_pre_rep k hk)
        · exact absurd ⟨x', heq.symm⟩ (rep_not_factor_watermark k hk)
      · rw [replaceAll_neg _ _ _ _ (fun hc => hw hc.2)] at hpre
        have hkl : k < watermark.length := hk
        have hdropk : watermark.drop k = watermark[k] :: watermark.drop (k + 1) :=
          List.drop_eq_getElem_cons hkl
        rw [hdropk] at hpre ⊢
        rw [List.cons_prefix_cons] at hpre
        obtain ⟨rfl, htail⟩ := hpre
        by_cases hklast : k + 1 < watermark.length
        · have := ih cs hlcs (k + 1) hklast htail
          exact List.cons_prefix_cons.mpr ⟨rfl, this⟩
        · have : watermark.drop (k + 1) = [] := by
            rw [List.drop_eq_nil_iff]; omega
          rw [this]
          exact List.cons_prefix_cons.mpr ⟨rfl, List.nil_prefix⟩

/-- The watermark phrase never occurs in the output of `replaceAll`: global
replacement removes every occurrence and cannot create a new one. -/
theorem watermark_not_sub_replaceAll_aux :
    ∀ n (s : Text), s.length ≤ n →
      ¬ watermark <:+: replaceAll watermark replacement s := by
  intro n
  induction n with
  | zero =>
    intro s hs hsub
    have : s = [] := List.length_eq_zero.mp (Nat.le_zero.mp hs)
    subst this
    rw [replaceAll_nil] at hsub
    exact watermark_ne_nil (List.infix_nil.mp hsub)
  | succ n ih =>
    intro s hs hsub
    match s with
    | [] =>
      rw [replaceAll_nil] at hsub
      exact watermark_ne_nil (List.infix_nil.mp hsub)
    | c :: cs =>
      have hlcs : cs.length ≤ n := by simpa using hs
      by_cases hw : watermark <+: (c :: cs)
      · rw [replaceAll_pos _ _ _ _ watermark_ne_nil hw] at hsub
        rcases sub_append_cases replacement hsub with ⟨j, hj, hx⟩ | h
        · rcases pre_append_cases hx with h' | ⟨x', heq, _⟩
          · exact watermark_not_pre_rep_tail j hj h'
          · exact rep_tail_not_pre_watermark j hj ⟨x', heq.symm⟩
        · have hdl : ((c :: cs).drop watermark.length).length ≤ n := by
            have h64 : 1 ≤ watermark.length := by decide
            simp only [List.length_drop, List.length_cons]
            simp only [List.length_cons] at hs
            omega
          exact ih _ hdl h
      · rw [replaceAll_neg _ _ _ _ (fun hc => hw hc.2)] at hsub
        rw [List.infix_cons_iff] at hsub
        rcases hsub with h | h
        · have h0 : 0 < watermark.length := by decide
          have hw0 : watermark = watermark[0] :: watermark.drop 1 := by
            simpa using List.drop_eq_getElem_cons h0
          nth_rewrite 1 [hw0] at h
          rw [List.cons_prefix_cons] at h
          obtain ⟨heq, htail⟩ := h
          have h1 : 1 < watermark.length := by decide
          have htail' := watermark_tail_pre_of_replaceAll cs.length cs le_rfl 1 h1 htail
          refine hw ?_
          nth_rewrite 1 [hw0]
          exact List.cons_prefix_cons.mpr ⟨heq, htail'⟩
        · exact ih _ hlcs h

/-- No output of the watermark replacement contains the watermark phrase. -/
theorem watermark_not_sub_replaceAll (s : Text) :
    ¬ watermark <:+: replaceAll watermark replacement s :=
  watermark_not_sub_replaceAll_aux s.length s le_rfl

/-- Texts free of the pattern are left unchanged by `replaceAll`. -/
theorem replaceAll_eq_self_of_not_sub :
    ∀ n (s : Text), s.length ≤ n → ¬ watermark <:+: s →
      replaceAll watermark replacement s = s := by
  intro n
  induction n with
  | zero =>
    intro s hs _
    have : s = [] := List.length_eq_zero.mp (Nat.le_zero.mp hs)
    subst this
    exact replaceAll_nil _ _
  | succ n ih =>
    intro s hs hsub
    match s with
    | [] => exact replaceAll_nil _ _
    | c :: cs =>
      have hlcs : cs.length ≤ n := by simpa using hs
      have hw : ¬ watermark <+: (c :: cs) := fun h => hsub h.isInfix
      rw [replaceAll_neg _ _ _ _ (fun hc => hw hc.2)]
      have : ¬ watermark <:+: cs := fun h => hsub (List.infix_cons h)
      rw [ih cs hlcs this]

/-- The watermark replacement applied to subtitle text before persisting
(`srtContent.replace(/Transcribed by TurboScribe\.ai\. Go Unlimited to remove
this message/g, "made by SayWith")`). -/
def stripWatermark (s : Text) : Text := replaceAll watermark replacement s

/-! ## Data model

Records and partial-update maps are field maps: association lists from field
keys to string/boolean values, in insertion order. -/

inductive FieldKey
  | name | template | enabled | mute | mediaUrl | audioUrl | srtContent | srtUrl
  deriving DecidableEq

inductive FieldValue
  | str (s : Text)
  | bool (b : Bool)
  deriving DecidableEq

abbrev FieldMap := List (FieldKey × FieldValue)

def lookupField : FieldMap → FieldKey → Option FieldValue
  | [], _ => none
  | (k', v) :: t, k => if k' = k then some v else lookupField t k

/-- A single conditional entry of an update map (`if (cond) updates.k = v`). -/
def optField (c : Prop) [Decidable c] (k : FieldKey) (v : FieldValue) : FieldMap :=
  if c then [(k, v)] else []

/-- A browser `File`: name, declared content type, text content. -/
structure File where
  name : Text
  type : Text
  content : Text
  deriving DecidableEq

/-- Form values of the create form and the `page.tsx` edit revision. -/
structure FormData where
  name : Text
  template : Text
  enabled : Bool
  mute : Bool
  deriving DecidableEq

/-- Which keys are present in `form.formState.dirtyFields`. -/
structure DirtyFields where
  name : Bool
  template : Bool
  enabled : Bool
  mute : Bool
  deriving DecidableEq

/-- A loaded record in the `page.tsx` edit revision. -/
structure DbData where
  name : Text
  template : Text
  enabled : Bool
  mute : Bool
  mediaUrl : Text
  audioUrl : Text
  srtContent : Text
  deriving DecidableEq

/-- Response of the custom REST upload endpoint: HTTP success flag and the
parsed JSON body's optional `error`, `file1URL`, `file2URL` fields. -/
structure UploadResponse where
  ok : Bool
  error : Option Text
  file1URL : Option Text
  file2URL : Option Text
  deriving DecidableEq

inductive StorageProvider
  | firebase | custom
  deriving DecidableEq

/-- JavaScript truthiness of an optional string field: present and non-empty. -/
def truthyOpt (o : Option Text) : Bool :=
  match o with
  | some t => !t.isEmpty
  | none => false

def uploadFailedMsg : Text := "Upload failed".data

/-- Message of `new Error(errorData.error || 'Upload failed')`. -/
def jsErrorMessage (errorField : Option Text) : Text :=
  match errorField with
  | some e => if e = [] then uploadFailedMsg else e
  | none => uploadFailedMsg

/-- Custom REST upload shared by the create workflows: when at least one file
is selected, POST both slots; on a non-ok response throw with the server's
message; otherwise take each returned URL if truthy (initial values `""`). -/
def customUploadUrls (mediaFile audioFile : Option File) (resp : UploadResponse) :
    Except Text (Text × Text) :=
  if mediaFile.isSome ∨ audioFile.isSome then
    if resp.ok then
      Except.ok ((if truthyOpt resp.file1URL then resp.file1URL.getD [] else []),
                 (if truthyOpt resp.file2URL then resp.file2URL.getD [] else []))
    else Except.error (jsErrorMessage resp.error)
  else Except.ok ([], [])

inductive CreateOutcome
  | saved (record : FieldMap)
  | failed (msg : Text)
  deriving DecidableEq

/-- The `srtContent` value computed by `CreateForm.tsx` `onSubmit`
(lines 153–157): empty without a subtitle file, otherwise the file's text
with the watermark replaced. -/
def createSrtValue (srtFile : Option File) : Text :=
  match srtFile with
  | none => []
  | some f => stripWatermark f.content

/-- `CreateForm.tsx` `onSubmit`: upload selected files according to the
provider, then write the full record `{...values, mediaUrl, audioUrl,
srtContent}` under the freshly minted identifier.  `mediaDl`/`audioDl` are the
download URLs the managed store returns for the uploads. -/
def createOnSubmit (provider : StorageProvider) (values : FormData)
    (mediaFile audioFile srtFile : Option File)
    (mediaDl audioDl : Text) (resp : UploadResponse) : CreateOutcome :=
  let urls : Except Text (Text × Text) :=
    match provider with
    | .firebase =>
        Except.ok ((if mediaFile.isSome then mediaDl else []),
                   (if audioFile.isSome then audioDl else []))
    | .custom => customUploadUrls mediaFile audioFile resp
  match urls with
  | .error e => .failed e
  | .ok (mediaUrl, audioUrl) =>
      .saved [(.name, .str values.name), (.template, .str values.template),
              (.enabled, .bool values.enabled), (.mute, .bool values.mute),
              (.mediaUrl, .str mediaUrl), (.audioUrl, .str audioUrl),
              (.srtContent, .str (createSrtValue srtFile))]

/-- The alternate create revision (second document of `FileUploader.tsx`):
same flow, but the subtitle file is uploaded as a blob and the record stores
`srtUrl` instead of inline `srtContent`; the custom backend never uploads the
subtitle slot, so `srtUrl` stays `""` there. -/
def createOnSubmitV2 (provider : StorageProvider) (values : FormData)
    (mediaFile audioFile srtFile : Option File)
    (mediaDl audioDl srtDl : Text) (resp : UploadResponse) : CreateOutcome :=
  let urls : Except Text (Text × Text × Text) :=
    match provider with
    | .firebase =>
        Except.ok ((if mediaFile.isSome then mediaDl else []),
                   (if audioFile.isSome then audioDl else []),
                   (if srtFile.isSome then srtDl else []))
    | .custom =>
        (customUploadUrls mediaFile audioFile resp).map (fun p => (p.1, p.2, ([] : Text)))
  match urls with
  | .error e => .failed e
  | .ok (mediaUrl, audioUrl, srtUrl) =>
      .saved [(.name, .str values.name), (.template, .str values.template),
              (.enabled, .bool values.enabled), (.mute, .bool values.mute),
              (.mediaUrl, .str mediaUrl), (.audioUrl, .str audioUrl),
              (.srtUrl, .str srtUrl)]

/-! ## The `page.tsx` edit revision (`onUpdate`, with dirty-field tracking) -/

/-- Form-field part of the update map (`page.tsx` lines 240–243): `name` and
`template` only when dirty and truthy, `enabled` and `mute` whenever their key
is present in `dirtyFields`. -/
def formFieldUpdates (dirty : DirtyFields) (values : FormData) : FieldMap :=
  optField (dirty.name = true ∧ values.name ≠ []) .name (.str values.name) ++
  optField (dirty.template = true ∧ values.template ≠ []) .template (.str values.template) ++
  optField (dirty.enabled = true) .enabled (.bool values.enabled) ++
  optField (dirty.mute = true) .mute (.bool values.mute)

/-- File part of the update map: with the managed store each selected file is
uploaded and its download URL added; with the custom backend a single POST is
made when at least one file is selected, a non-ok response throws, and each
truthy returned URL is added. -/
def fileUpdates (provider : StorageProvider) (mediaFile audioFile : Option File)
    (mediaDl audioDl : Text) (resp : UploadResponse) : Except Text FieldMap :=
  match provider with
  | .firebase =>
      Except.ok (optField (mediaFile.isSome = true) .mediaUrl (.str mediaDl) ++
                 optField (audioFile.isSome = true) .audioUrl (.str audioDl))
  | .custom =>
      if mediaFile.isSome ∨ audioFile.isSome then
        if resp.ok then
          Except.ok
            (optField (truthyOpt resp.file1URL = true) .mediaUrl
               (.str (resp.file1URL.getD [])) ++
             optField (truthyOpt resp.file2URL = true) .audioUrl
               (.str (resp.file2URL.getD [])))
        else Except.error (jsErrorMessage resp.error)
      else Except.ok []

/-- `finalSrtContent` of `page.tsx` lines 291–295: the freshly uploaded file's
text if any, else the textarea state, then watermark replacement. -/
def pageFinalSrt (srtFile : Option File) (srtState : Text) : Text :=
  stripWatermark (match srtFile with | some f => f.content | none => srtState)

/-- `srtContent` entry of the update map: added only when the final text
differs from the loaded record's text (`page.tsx` line 296). -/
def srtUpdate (srtFile : Option File) (srtState loadedSrt : Text) : FieldMap :=
  optField (pageFinalSrt srtFile srtState ≠ loadedSrt) .srtContent
    (.str (pageFinalSrt srtFile srtState))

/-- The update map built by `page.tsx` `onUpdate` (lines 236–296), or the
thrown upload error. -/
def pageUpdates (provider : StorageProvider) (values : FormData)
    (dirty : DirtyFields) (loaded : DbData)
    (mediaFile audioFile srtFile : Option File) (srtState : Text)
    (mediaDl audioDl : Text) (resp : UploadResponse) : Except Text FieldMap :=
  match fileUpdates provider mediaFile audioFile mediaDl audioDl resp with
  | .error e => .error e
  | .ok fu =>
      .ok (formFieldUpdates dirty values ++ fu ++
           srtUpdate srtFile srtState loaded.srtContent)

inductive UpdateOutcome
  | wrote (updates : FieldMap)
  | noChanges
  | failed (msg : Text)
  deriving DecidableEq

/-- `page.tsx` `onUpdate` outcome (lines 298–304): write the update map when
non-empty, otherwise report "No Changes"; a thrown upload error aborts. -/
def pageOnUpdate (provider : StorageProvider) (values : FormData)
    (dirty : DirtyFields) (loaded : DbData)
    (mediaFile audioFile srtFile : Option File) (srtState : Text)
    (mediaDl audioDl : Text) (resp : UploadResponse) : UpdateOutcome :=
  match pageUpdates provider values dirty loaded mediaFile audioFile srtFile
      srtState mediaDl audioDl resp with
  | .error e => .failed e
  | .ok u => if u = [] then .noChanges else .wrote u

/-! ## Store semantics -/

/-- A record held by the keyed store, as a partial assignment of fields. -/
abbrev StoredRecord := FieldKey → Option FieldValue

abbrev Store := Text → Option StoredRecord

def recordAt (store : Store) (id : Text) : StoredRecord :=
  fun k => match store id with
    | some r => r k
    | none => none

/-- `update(ref, updates)` merge semantics: keys of the update map are
replaced, all other fields are untouched. -/
def mergeFields (rec : StoredRecord) (u : FieldMap) : StoredRecord :=
  fun k => match lookupField u k with
    | some v => some v
    | none => rec k

/-- Effect of an update outcome on the store: only a `wrote` outcome touches
the store, merging the update map into the record at the key. -/
def stepStore (store : Store) (id : Text) : UpdateOutcome → Store
  | .wrote u => fun j =>
      if j = id then some (mergeFields (recordAt store id) u) else store j
  | _ => store

/-! ## The `EditForm.tsx` edit revision (no dirty tracking) -/

/-- Form values of `EditForm.tsx` (no `mute` field in this revision). -/
structure EditFormValues where
  name : Text
  template : Text
  enabled : Bool
  deriving DecidableEq

/-- A loaded record in the `EditForm.tsx` revision. -/
structure EditDbData where
  name : Text
  template : Text
  enabled : Bool
  mediaUrl : Text
  audioUrl : Text
  srtContent : Text
  deriving DecidableEq

/-- `finalSrtContent` of `EditForm.tsx` lines 117–120: the freshly uploaded
file's text if any, else the textarea state — no watermark replacement in
this revision. -/
def editFormFinalSrt (srtFile : Option File) (srtState : Text) : Text :=
  match srtFile with
  | some f => f.content
  | none => srtState

/-- The map sent by `EditForm.tsx` `onUpdate` (lines 103–127):
`{...values, mediaUrl, audioUrl, srtContent}` — every field is always sent,
with existing URLs re-sent when no new file was chosen. -/
def editFormUpdateMap (values : EditFormValues) (loaded : EditDbData)
    (mediaFile audioFile srtFile : Option File) (mediaDl audioDl : Text)
    (srtState : Text) : FieldMap :=
  [(.name, .str values.name), (.template, .str values.template),
   (.enabled, .bool values.enabled),
   (.mediaUrl, .str (if mediaFile.isSome then mediaDl else loaded.mediaUrl)),
   (.audioUrl, .str (if audioFile.isSome then audioDl else loaded.audioUrl)),
   (.srtContent, .str (editFormFinalSrt srtFile srtState))]

/-! ## File-name extension derivation -/

/-- JS `filename.lastIndexOf(".")`: index of the last `'.'`, `-1` if none. -/
def jsLastIndexOfDot (s : Text) : Int :=
  (s.length : Int) - 1 - (s.reverse.findIdx (fun c => c == '.') : Int)

/-- JS `x >>> 0`: conversion to an unsigned 32-bit integer. -/
def toUint32 (x : Int) : Nat := (x % (4294967296 : Int)).toNat

/-- `CreateForm.tsx` lines 44–46 / `page.tsx` lines 169–171:
`filename.slice(((filename.lastIndexOf(".") - 1) >>> 0) + 2)`. -/
def getFileExtension (filename : Text) : Text :=
  filename.drop (toUint32 (jsLastIndexOfDot filename - 1) + 2)

/-- The substring after the last `'.'` of the name (everything after the last
dot; the whole string if there is no dot). -/
def afterLastDot (s : Text) : Text :=
  (s.reverse.takeWhile (fun c => !(c == '.'))).reverse

/-- Extension derivation as worded by the spec: the substring after the last
`'.'`, defaulting to the empty string when no `'.'` is present.  Stated from
the spec's words for comparison against `getFileExtension`. -/
def specExtension (s : Text) : Text :=
  if ('.' : Char) ∈ s then afterLastDot s else []

/-! ## Lock screen (second document of `EditForm.tsx`, lines 259–284) -/

/-- The guard of `handlePinChange`: `/^\d*$/.test(value) && value.length <= 4`. -/
def validPinInput (v : Text) : Bool :=
  v.all (fun c => c.isDigit) && decide (v.length ≤ 4)

/-- `handlePinChange`: accept the new input value only when it is at most four
decimal digits; otherwise the stored value is unchanged. -/
def handlePinChange (pin newValue : Text) : Text :=
  if validPinInput newValue then newValue else pin

structure LockState where
  pin : Text
  unlocked : Bool
  deriving DecidableEq

/-- `handleSubmit` of the lock screen: `pin === correctPin` unlocks (the
configured PIN may be absent, in which case the comparison is always false);
on a mismatch the interface stays as it was and the PIN input is cleared. -/
def lockHandleSubmit (correctPin : Option Text) (st : LockState) : LockState :=
  if some st.pin = correctPin then { st with unlocked := true }
  else { pin := [], unlocked := st.unlocked }

/-! ## FileUploader (`handleFileChange`, lines 29–32) -/

/-- `onFileSelect(e.target.files?.[0] || null)`: `null` when the list is
missing or empty, otherwise the first selected file. -/
def handleFileChange (files : Option (List File)) : Option File :=
  match files with
  | none => none
  | some fs => fs.head?

/-! ## Lookup helpers -/

theorem lookupField_append_of_none {m₁ : FieldMap} {k : FieldKey}
    (h : lookupField m₁ k = none) (m₂ : FieldMap) :
    lookupField (m₁ ++ m₂) k = lookupField m₂ k := by
  induction m₁ with
  | nil => rfl
  | cons p t ih =>
    obtain ⟨k', v⟩ := p
    by_cases hk : k' = k
    · simp [lookupField, hk] at h
    · simp only [lookupField, List.cons_append, if_neg hk] at h ⊢
      exact ih h

theorem lookupField_parts_none {a b c : FieldMap} {k : FieldKey}
    (ha : lookupField a k = none) (hb : lookupField b k = none)
    (hc : lookupField c k = none) :
    lookupField (a ++ b ++ c) k = none := by
  simp only [List.append_assoc]
  rw [lookupField_append_of_none ha, lookupField_append_of_none hb]
  exact hc

/-- `optField` binds no key `k` unless its condition holds and its key is `k`. -/
theorem lookupField_optField {c : Prop} [Decidable c] {k' k : FieldKey}
    {v : FieldValue} (h : c → k' = k → False) :
    lookupField (optField c k' v) k = none := by
  by_cases hc : c
  · rw [optField, if_pos hc]
    have hne : k' ≠ k := fun he => h hc he
    simp [lookupField, hne]
  · rw [optField, if_neg hc]
    rfl

theorem lookupField_eq_none_iff (m : FieldMap) (k : FieldKey) :
    lookupField m k = none ↔ ∀ v, (k, v) ∉ m := by
  induction m with
  | nil => simp [lookupField]
  | cons p t ih =>
    obtain ⟨k', v'⟩ := p
    by_cases h : k' = k
    · subst h
      simp only [lookupField, if_pos rfl]
      constructor
      · intro h'
        exact absurd h' (Option.some_ne_none v')
      · intro h'
        exact absurd (List.mem_cons_self (k', v') t) (h' v')
    · simp only [lookupField, if_neg h, ih]
      constructor
      · intro h' v hv
        rcases List.mem_cons.mp hv with he | ht
        · exact h (by injection he with h1 h2; exact h1.symm)
        · exact h' v ht
      · intro h' v hv
        exact h' v (List.mem_cons_of_mem _ hv)

/-! ## takeWhile / findIdx / reverse helpers for extension derivation -/

theorem takeWhile_not_eq_take_findIdx {α : Type} (p : α → Bool) (r : List α) :
    r.takeWhile (fun c => !(p c)) = r.take (r.findIdx p) := by
  induction r with
  | nil => rfl
  | cons a t ih =>
    by_cases h : p a
    · simp [List.takeWhile_cons, List.findIdx_cons, h]
    · simp [List.takeWhile_cons, List.findIdx_cons, h, ih]

theorem reverse_drop_take {α : Type} (r : List α) (f : Nat) :
    r.reverse.drop (r.length - f) = (r.take f).reverse := by
  have key : r.reverse = (r.drop f).reverse ++ (r.take f).reverse := by
    rw [← List.reverse_append, List.take_append_drop]
  rw [key, List.drop_left']
  simp

/-- C3 (amended): for filenames of JavaScript-representable length, the
derived extension is the substring after the last `'.'` whenever that dot is
at index at least 1; when the filename has no `'.'`, or its last `'.'` is the
very first character (index 0, e.g. `".mp4"`), the derived extension is the
empty string. -/
theorem getFileExtension_characterization (s : Text)
    (hlen : s.length ≤ 4294967296) :
    (jsLastIndexOfDot s < 1 → getFileExtension s = []) ∧
    (1 ≤ jsLastIndexOfDot s → getFileExtension s = afterLastDot s) := by
  have hfle : s.reverse.findIdx (fun c => c == '.') ≤ s.length := by
    simpa using @List.findIdx_le_length Char (fun c => c == '.') s.reverse
  have hd : jsLastIndexOfDot s
      = (s.length : Int) - 1 - (s.reverse.findIdx (fun c => c == '.') : Int) := rfl
  constructor
  · intro h1
    have hge : (-1 : Int) ≤ jsLastIndexOfDot s := by
      rw [hd]
      have : ((s.reverse.findIdx (fun c => c == '.') : Nat) : Int) ≤ (s.length : Int) := by
        exact_mod_cast hfle
      omega
    have hcases : jsLastIndexOfDot s = -1 ∨ jsLastIndexOfDot s = 0 := by omega
    unfold getFileExtension
    rcases hcases with h | h <;> rw [h] <;>
      · apply List.drop_eq_nil_of_le
        have : toUint32 (-1 - 1) + 2 = 4294967296 ∧ toUint32 (0 - 1) + 2 = 4294967297 := by
          decide
        omega
  · intro h1
    have hcast : ((s.reverse.findIdx (fun c => c == '.') : Nat) : Int) ≤ (s.length : Int) := by
      exact_mod_cast hfle
    have hlen' : ((s.length : Nat) : Int) ≤ 4294967296 := by exact_mod_cast hlen
    have hnn : 0 ≤ jsLastIndexOfDot s - 1 := by omega
    have hlt : jsLastIndexOfDot s - 1 < 4294967296 := by rw [hd]; omega
    have hto : (toUint32 (jsLastIndexOfDot s - 1) : Int) = jsLastIndexOfDot s - 1 := by
      unfold toUint32
      rw [Int.emod_eq_of_lt hnn hlt]
      exact Int.toNat_of_nonneg hnn
    have hcount : toUint32 (jsLastIndexOfDot s - 1) + 2
        = s.length - s.reverse.findIdx (fun c => c == '.') := by
      omega
    unfold getFileExtension
    rw [hcount, afterLastDot, takeWhile_not_eq_take_findIdx]
    have := reverse_drop_take s.reverse (s.reverse.findIdx (fun c => c == '.'))
    rw [List.reverse_reverse, List.length_reverse] at this
    exact this

/-- C3 counterexample: for `".mp4"` the code derives the empty extension,
while the substring after the last `'.'` is `"mp4"`. -/
theorem getFileExtension_leading_dot_counterexample :
    getFileExtension ".mp4".data = [] ∧
    specExtension ".mp4".data = "mp4".data ∧
    getFileExtension ".mp4".data ≠ specExtension ".mp4".data := by
  refine ⟨by decide, by decide, by decide⟩

/-- C3 witness: the derived-extension characterization applied to
`"clip.final.mp4"`, whose extension is `"mp4"`. -/
theorem getFileExtension_characterization_witness :
    ("clip.final.mp4".data.length ≤ 4294967296) ∧
    (1 ≤ jsLastIndexOfDot "clip.final.mp4".data) ∧
    getFileExtension "clip.final.mp4".data = afterLastDot "clip.final.mp4".data ∧
    afterLastDot "clip.final.mp4".data = "mp4".data ∧
    getFileExtension "noext".data = [] :=
  ⟨by decide, by decide,
   (getFileExtension_characterization "clip.final.mp4".data (by decide)).2 (by decide),
   by decide, by decide⟩

/-- C4: the watermark replacement is idempotent — a second application leaves
the text unchanged, because the first application removes every occurrence of
the watermark and cannot create a new one. -/
theorem stripWatermark_idempotent (s : Text) :
    stripWatermark (stripWatermark s) = stripWatermark s :=
  replaceAll_eq_self_of_not_sub (stripWatermark s).length (stripWatermark s)
    le_rfl (watermark_not_sub_replaceAll s)

/-- C1 (amended): in the `CreateForm.tsx` create workflow and the `page.tsx`
edit workflow, the subtitle text that gets persisted (`createSrtValue`,
`pageFinalSrt`) never contains the watermark phrase.  (The `EditForm.tsx`
revision persists subtitle text without replacement — see the
counterexample.) -/
theorem persisted_srt_watermark_free (srtFile : Option File) (srtState : Text) :
    ¬ watermark <:+: createSrtValue srtFile ∧
    ¬ watermark <:+: pageFinalSrt srtFile srtState := by
  constructor
  · cases srtFile with
    | none =>
      intro h
      rw [createSrtValue, List.infix_nil] at h
      exact watermark_ne_nil h
    | some f => exact watermark_not_sub_replaceAll f.content
  · cases srtFile with
    | none => exact watermark_not_sub_replaceAll srtState
    | some f => exact watermark_not_sub_replaceAll f.content

/-- C1 counterexample: the `EditForm.tsx` update workflow persists a freshly
uploaded subtitle file verbatim — uploading a file whose content is exactly
the watermark phrase puts the watermark into the written `srtContent`. -/
theorem editForm_writes_watermark_verbatim :
    lookupField
      (editFormUpdateMap ⟨"n".data, "template1".data, true⟩
        ⟨"n".data, "template1".data, true, [], [], []⟩
        none none (some ⟨"subs.srt".data, "text/plain".data, watermark⟩)
        [] [] []) .srtContent = some (.str watermark) ∧
    watermark <:+: watermark :=
  ⟨rfl, List.infix_rfl⟩

/-- C2 counterexample: in the `EditForm.tsx` update workflow, with no new
media file chosen, the update map still contains a `mediaUrl` key re-sending
the previously loaded URL. -/
theorem editForm_resends_mediaUrl_without_new_file :
    lookupField
      (editFormUpdateMap ⟨"n".data, "template1".data, true⟩
        ⟨"n".data, "template1".data, true, "http://old.example/m".data, [], []⟩
        none none none [] [] []) .mediaUrl
      = some (.str "http://old.example/m".data) := rfl

/-- C8 helper: the create input of the scenario — name `"Promo"`, template
`"template1"`, default checkboxes. -/
def promoValues : FormData := ⟨"Promo".data, "template1".data, false, false⟩

/-- The record the `CreateForm.tsx` revision stores for `promoValues` with no
files. -/
def promoRecord : FieldMap :=
  [(.name, .str "Promo".data), (.template, .str "template1".data),
   (.enabled, .bool false), (.mute, .bool false),
   (.mediaUrl, .str []), (.audioUrl, .str []), (.srtContent, .str [])]

/-- The record the alternate create revision stores for the same input. -/
def promoRecordV2 : FieldMap :=
  [(.name, .str "Promo".data), (.template, .str "template1".data),
   (.enabled, .bool false), (.mute, .bool false),
   (.mediaUrl, .str []), (.audioUrl, .str []), (.srtUrl, .str [])]

/-- C8 (amended): with either storage provider, creating with name `"Promo"`,
template `"template1"`, default checkboxes and no files stores a record with
`mediaUrl = ""`, `audioUrl = ""` and `enabled = false`; the `CreateForm.tsx`
revision stores `srtContent = ""`, while the alternate revision stores
`srtUrl = ""` and no `srtContent` field. -/
theorem create_promo_record (provider : StorageProvider)
    (mediaDl audioDl srtDl : Text) (resp : UploadResponse) :
    createOnSubmit provider promoValues none none none mediaDl audioDl resp
      = .saved promoRecord ∧
    createOnSubmitV2 provider promoValues none none none mediaDl audioDl srtDl resp
      = .saved promoRecordV2 ∧
    lookupField promoRecord .mediaUrl = some (.str []) ∧
    lookupField promoRecord .audioUrl = some (.str []) ∧
    lookupField promoRecord .enabled = some (.bool false) ∧
    lookupField promoRecord .srtContent = some (.str []) ∧
    lookupField promoRecordV2 .srtUrl = some (.str []) := by
  cases provider <;> exact ⟨rfl, rfl, rfl, rfl, rfl, rfl, rfl⟩

/-- C8 counterexample: the alternate create revision stores, for the same
scenario input, a record that has no `srtContent` field at all (it stores
`srtUrl` instead), so "the record is stored with `srtContent = \x22\x22`" fails
for that create workflow. -/
theorem createV2_stores_no_srtContent :
    createOnSubmitV2 .firebase promoValues none none none [] [] []
        ⟨true, none, none, none⟩ = .saved promoRecordV2 ∧
    lookupField promoRecordV2 .srtContent = none :=
  ⟨rfl, rfl⟩

/-- C9: the lock screen unlocks exactly when the submitted PIN equals the
configured PIN; a mismatch leaves it locked and clears the stored input; and
the PIN-input handler only ever stores strings of at most four decimal digits,
ignoring any other input value. -/
theorem lockScreen_pin_gate (p : Text) (st : LockState) (cur v : Text)
    (hlock : st.unlocked = false)
    (hcur : cur.length ≤ 4 ∧ ∀ c ∈ cur, c.isDigit = true) :
    ((lockHandleSubmit (some p) st).unlocked = true ↔ st.pin = p) ∧
    (st.pin ≠ p → lockHandleSubmit (some p) st = ⟨[], false⟩) ∧
    ((handlePinChange cur v).length ≤ 4 ∧
      ∀ c ∈ handlePinChange cur v, c.isDigit = true) ∧
    (validPinInput v = false → handlePinChange cur v = cur) := by
  refine ⟨?_, ?_, ?_, ?_⟩
  · by_cases heq : st.pin = p
    · rw [lockHandleSubmit, if_pos (by rw [heq])]
      simpa using heq
    · rw [lockHandleSubmit, if_neg (by simpa using heq)]
      simpa [hlock] using heq
  · intro hne
    rw [lockHandleSubmit, if_neg (by simpa using hne), hlock]
  · rw [handlePinChange]
    by_cases hv : validPinInput v
    · rw [if_pos hv]
      rw [validPinInput, Bool.and_eq_true] at hv
      exact ⟨by simpa using hv.2, by simpa [List.all_eq_true] using hv.1⟩
    · rw [if_neg hv]
      exact hcur
  · intro h
    rw [handlePinChange, if_neg (by simp [h])]

/-- C9 witness: the gate at PIN `"1234"`, current input `"12"`, rejected
input `"12a"`. -/
theorem lockScreen_pin_gate_witness :
    ((⟨"1234".data, false⟩ : LockState).unlocked = false) ∧
    (("12".data : Text).length ≤ 4 ∧ ∀ c ∈ ("12".data : Text), c.isDigit = true) ∧
    (((lockHandleSubmit (some "1234".data) ⟨"1234".data, false⟩).unlocked = true ↔
        ("1234".data : Text) = "1234".data) ∧
      (("1234".data : Text) ≠ "1234".data →
        lockHandleSubmit (some "1234".data) ⟨"1234".data, false⟩ = ⟨[], false⟩) ∧
      ((handlePinChange "12".data "12a".data).length ≤ 4 ∧
        ∀ c ∈ handlePinChange "12".data "12a".data, c.isDigit = true) ∧
      (validPinInput "12a".data = false →
        handlePinChange "12".data "12a".data = "12".data)) :=
  ⟨rfl, by decide,
   lockScreen_pin_gate "1234".data ⟨"1234".data, false⟩ "12".data "12a".data rfl (by decide)⟩

/-- C10: the file-picker change handler passes `null` through when the file
list is missing or empty (clearing the slot), and otherwise exactly the first
selected file. -/
theorem handleFileChange_first_or_none :
    handleFileChange none = none ∧
    handleFileChange (some []) = none ∧
    ∀ (f : File) (fs : List File), handleFileChange (some (f :: fs)) = some f :=
  ⟨rfl, rfl, fun _ _ => rfl⟩

/-- C7 (amended): when the custom upload endpoint answers with a
non-successful status and a body whose `error` field is a non-empty string,
both the create and the edit workflow abort with exactly that message.  (An
empty or missing `error` field falls back to `"Upload failed"` — see the
counterexample.) -/
theorem upload_error_carries_server_message (values : FormData)
    (dirty : DirtyFields) (loaded : DbData)
    (mediaFile audioFile srtFile : Option File) (srtState : Text)
    (mediaDl audioDl : Text) (resp : UploadResponse) (e : Text)
    (hfiles : mediaFile.isSome = true ∨ audioFile.isSome = true)
    (hok : resp.ok = false) (herr : resp.error = some e) (hne : e ≠ []) :
    createOnSubmit .custom values mediaFile audioFile srtFile mediaDl audioDl resp
      = .failed e ∧
    pageOnUpdate .custom values dirty loaded mediaFile audioFile srtFile srtState
      mediaDl audioDl resp = .failed e := by
  have hmsg : jsErrorMessage resp.error = e := by
    rw [herr, jsErrorMessage, if_neg hne]
  have hnotok : ¬ resp.ok = true := by rw [hok]; exact Bool.false_ne_true
  have hcu : customUploadUrls mediaFile audioFile resp = .error e := by
    rw [customUploadUrls, if_pos hfiles, if_neg hnotok, hmsg]
  have hfu : fileUpdates .custom mediaFile audioFile mediaDl audioDl resp
      = .error e := by
    simp only [fileUpdates]
    rw [if_pos hfiles, if_neg hnotok, hmsg]
  constructor
  · simp [createOnSubmit, hcu]
  · simp [pageOnUpdate, pageUpdates, hfu]

/-- C7 counterexample: a non-ok response whose body does contain an `error`
field, with the empty string as its value, aborts with the fallback message
`"Upload failed"`, not with the server-reported (empty) string. -/
theorem upload_error_empty_message_fallback :
    createOnSubmit .custom ⟨[], [], false, false⟩
        (some ⟨"a.mp4".data, "video/mp4".data, []⟩) none none [] []
        ⟨false, some [], none, none⟩
      = .failed uploadFailedMsg ∧
    uploadFailedMsg ≠ [] :=
  ⟨rfl, by decide⟩

/-- C7 witness: HTTP failure with body `{"error":"disk full"}` aborts both
workflows with message exactly `"disk full"`. -/
theorem upload_error_carries_server_message_witness :
    createOnSubmit .custom promoValues (some ⟨"a.mp4".data, "video/mp4".data, []⟩)
        none none [] [] ⟨false, some "disk full".data, none, none⟩
      = .failed "disk full".data ∧
    pageOnUpdate .custom promoValues ⟨false, false, false, false⟩
        ⟨[], [], false, false, [], [], []⟩
        (some ⟨"a.mp4".data, "video/mp4".data, []⟩) none none [] [] []
        ⟨false, some "disk full".data, none, none⟩
      = .failed "disk full".data :=
  upload_error_carries_server_message promoValues ⟨false, false, false, false⟩
    ⟨[], [], false, false, [], [], []⟩
    (some ⟨"a.mp4".data, "video/mp4".data, []⟩) none none [] [] []
    ⟨false, some "disk full".data, none, none⟩ "disk full".data
    (Or.inl rfl) rfl rfl (by decide)

/-! ## Frame lemmas for the `page.tsx` update map -/

theorem ffu_lookup_other (d : DirtyFields) (v : FormData) (k : FieldKey)
    (h1 : k ≠ .name) (h2 : k ≠ .template) (h3 : k ≠ .enabled) (h4 : k ≠ .mute) :
    lookupField (formFieldUpdates d v) k = none := by
  rw [formFieldUpdates]
  simp only [List.append_assoc]
  rw [lookupField_append_of_none (lookupField_optField (fun _ he => h1 he.symm)),
      lookupField_append_of_none (lookupField_optField (fun _ he => h2 he.symm)),
      lookupField_append_of_none (lookupField_optField (fun _ he => h3 he.symm))]
  exact lookupField_optField (fun _ he => h4 he.symm)

theorem ffu_lookup_name (d : DirtyFields) (v : FormData) (h : d.name = false) :
    lookupField (formFieldUpdates d v) .name = none := by
  rw [formFieldUpdates]
  simp only [List.append_assoc]
  rw [lookupField_append_of_none (lookupField_optField
        (fun hc _ => by rw [h] at hc; simp at hc)),
      lookupField_append_of_none (lookupField_optField
        (fun _ he => by exact absurd he (by decide))),
      lookupField_append_of_none (lookupField_optField
        (fun _ he => by exact absurd he (by decide)))]
  exact lookupField_optField (fun _ he => by exact absurd he (by decide))

theorem ffu_lookup_template (d : DirtyFields) (v : FormData) (h : d.template = false) :
    lookupField (formFieldUpdates d v) .template = none := by
  rw [formFieldUpdates]
  simp only [List.append_assoc]
  rw [lookupField_append_of_none (lookupField_optField
        (fun _ he => by exact absurd he (by decide))),
      lookupField_append_of_none (lookupField_optField
        (fun hc _ => by rw [h] at hc; simp at hc)),
      lookupField_append_of_none (lookupField_optField
        (fun _ he => by exact absurd he (by decide)))]
  exact lookupField_optField (fun _ he => by exact absurd he (by decide))

theorem ffu_lookup_enabled (d : DirtyFields) (v : FormData) (h : d.enabled = false) :
    lookupField (formFieldUpdates d v) .enabled = none := by
  rw [formFieldUpdates]
  simp only [List.append_assoc]
  rw [lookupField_append_of_none (lookupField_optField
        (fun _ he => by exact absurd he (by decide))),
      lookupField_append_of_none (lookupField_optField
        (fun _ he => by exact absurd he (by decide))),
      lookupField_append_of_none (lookupField_optField
        (fun hc _ => by rw [h] at hc; simp at hc))]
  exact lookupField_optField (fun _ he => by exact absurd he (by decide))

theorem ffu_lookup_mute (d : DirtyFields) (v : FormData) (h : d.mute = false) :
    lookupField (formFieldUpdates d v) .mute = none := by
  rw [formFieldUpdates]
  simp only [List.append_assoc]
  rw [lookupField_append_of_none (lookupField_optField
        (fun _ he => by exact absurd he (by decide))),
      lookupField_append_of_none (lookupField_optField
        (fun _ he => by exact absurd he (by decide))),
      lookupField_append_of_none (lookupField_optField
        (fun _ he => by exact absurd he (by decide)))]
  exact lookupField_optField (fun hc _ => by rw [h] at hc; simp at hc)

theorem srtUpdate_lookup_other (srtFile : Option File) (srtState loadedSrt : Text)
    (k : FieldKey) (h : k ≠ .srtContent) :
    lookupField (srtUpdate srtFile srtState loadedSrt) k = none := by
  rw [srtUpdate]
  exact lookupField_optField (fun _ he => h he.symm)

/-- With no new media file chosen (and the endpoint reporting URLs only for
uploaded slots), the file part of the update map binds no `mediaUrl`. -/
theorem fileUpdates_media_none {provider : StorageProvider}
    {mediaFile audioFile : Option File} {mediaDl audioDl : Text}
    {resp : UploadResponse} {fu : FieldMap}
    (hfu : fileUpdates provider mediaFile audioFile mediaDl audioDl resp = .ok fu)
    (hm : mediaFile = none)
    (hresp1 : resp.file1URL ≠ none → mediaFile ≠ none) :
    lookupField fu .mediaUrl = none := by
  subst hm
  cases provider with
  | firebase =>
    simp only [fileUpdates] at hfu
    injection hfu with h
    subst h
    rw [lookupField_append_of_none (lookupField_optField
          (fun hc _ => by simp at hc))]
    exact lookupField_optField (fun _ he => by exact absurd he (by decide))
  | custom =>
    have h1URL : resp.file1URL = none := by
      by_cases h : resp.file1URL = none
      · exact h
      · exact absurd rfl (hresp1 h)
    simp only [fileUpdates] at hfu
    by_cases hsel : (Option.isSome (none : Option File) = true) ∨ (audioFile.isSome = true)
    · rw [if_pos hsel] at hfu
      by_cases hok : resp.ok = true
      · rw [if_pos hok] at hfu
        injection hfu with h
        subst h
        rw [lookupField_append_of_none (lookupField_optField
              (fun hc _ => by rw [h1URL] at hc; simp [truthyOpt] at hc))]
        exact lookupField_optField (fun _ he => by exact absurd he (by decide))
      · rw [if_neg hok] at hfu
        exact Except.noConfusion hfu
    · rw [if_neg hsel] at hfu
      injection hfu with h
      subst h
      rfl

/-- Symmetric statement for the audio slot. -/
theorem fileUpdates_audio_none {provider : StorageProvider}
    {mediaFile audioFile : Option File} {mediaDl audioDl : Text}
    {resp : UploadResponse} {fu : FieldMap}
    (hfu : fileUpdates provider mediaFile audioFile mediaDl audioDl resp = .ok fu)
    (ha : audioFile = none)
    (hresp2 : resp.file2URL ≠ none → audioFile ≠ none) :
    lookupField fu .audioUrl = none := by
  subst ha
  cases provider with
  | firebase =>
    simp only [fileUpdates] at hfu
    injection hfu with h
    subst h
    rw [lookupField_append_of_none (lookupField_optField
          (fun _ he => by exact absurd he (by decide)))]
    exact lookupField_optField (fun hc _ => by simp at hc)
  | custom =>
    have h2URL : resp.file2URL = none := by
      by_cases h : resp.file2URL = none
      · exact h
      · exact absurd rfl (hresp2 h)
    simp only [fileUpdates] at hfu
    by_cases hsel : (mediaFile.isSome = true) ∨ (Option.isSome (none : Option File) = true)
    · rw [if_pos hsel] at hfu
      by_cases hok : resp.ok = true
      · rw [if_pos hok] at hfu
        injection hfu with h
        subst h
        rw [lookupField_append_of_none (lookupField_optField
              (fun _ he => by exact absurd he (by decide)))]
        exact lookupField_optField (fun hc _ => by rw [h2URL] at hc; simp [truthyOpt] at hc)
      · rw [if_neg hok] at hfu
        exact Except.noConfusion hfu
    · rw [if_neg hsel] at hfu
      injection hfu with h
      subst h
      rfl

/-- The file part of the update map binds only the two URL keys. -/
theorem fileUpdates_lookup_other {provider : StorageProvider}
    {mediaFile audioFile : Option File} {mediaDl audioDl : Text}
    {resp : UploadResponse} {fu : FieldMap}
    (hfu : fileUpdates provider mediaFile audioFile mediaDl audioDl resp = .ok fu)
    (k : FieldKey) (h1 : k ≠ .mediaUrl) (h2 : k ≠ .audioUrl) :
    lookupField fu k = none := by
  cases provider with
  | firebase =>
    simp only [fileUpdates] at hfu
    injection hfu with h
    subst h
    rw [lookupField_append_of_none (lookupField_optField (fun _ he => h1 he.symm))]
    exact lookupField_optField (fun _ he => h2 he.symm)
  | custom =>
    simp only [fileUpdates] at hfu
    by_cases hsel : (mediaFile.isSome = true) ∨ (audioFile.isSome = true)
    · rw [if_pos hsel] at hfu
      by_cases hok : resp.ok = true
      · rw [if_pos hok] at hfu
        injection hfu with h
        subst h
        rw [lookupField_append_of_none (lookupField_optField (fun _ he => h1 he.symm))]
        exact lookupField_optField (fun _ he => h2 he.symm)
      · rw [if_neg hok] at hfu
        exact Except.noConfusion hfu
    · rw [if_neg hsel] at hfu
      injection hfu with h
      subst h
      rfl

/-- C2 (amended): in the `page.tsx` edit workflow — with the upload endpoint
returning a URL only for a slot that was actually uploaded, as its interface
specifies — the update map sent to the store binds `mediaUrl`/`audioUrl` only
when a new media/audio file was chosen, binds form fields only when they are
marked dirty, and therefore a merge of the map leaves an absent URL untouched.
(The `EditForm.tsx` revision always re-sends every field — see the
counterexample.) -/
theorem pageUpdate_frame_minimal (provider : StorageProvider) (values : FormData)
    (dirty : DirtyFields) (loaded : DbData)
    (mediaFile audioFile srtFile : Option File) (srtState : Text)
    (mediaDl audioDl : Text) (resp : UploadResponse) (u : FieldMap)
    (hresp1 : resp.file1URL ≠ none → mediaFile ≠ none)
    (hresp2 : resp.file2URL ≠ none → audioFile ≠ none)
    (hok : pageUpdates provider values dirty loaded mediaFile audioFile srtFile
        srtState mediaDl audioDl resp = .ok u) :
    (mediaFile = none → lookupField u .mediaUrl = none) ∧
    (audioFile = none → lookupField u .audioUrl = none) ∧
    (dirty.name = false → lookupField u .name = none) ∧
    (dirty.template = false → lookupField u .template = none) ∧
    (dirty.enabled = false → lookupField u .enabled = none) ∧
    (dirty.mute = false → lookupField u .mute = none) ∧
    (mediaFile = none → ∀ rec : StoredRecord, mergeFields rec u .mediaUrl = rec .mediaUrl) ∧
    (audioFile = none → ∀ rec : StoredRecord, mergeFields rec u .audioUrl = rec .audioUrl) := by
  cases hfu : fileUpdates provider mediaFile audioFile mediaDl audioDl resp with
  | error e =>
    simp only [pageUpdates, hfu] at hok
    exact Except.noConfusion hok
  | ok fu =>
    simp only [pageUpdates, hfu, Except.ok.injEq] at hok
    subst hok
    have hmedia : mediaFile = none → lookupField
        (formFieldUpdates dirty values ++ fu ++
          srtUpdate srtFile srtState loaded.srtContent) .mediaUrl = none := by
      intro hm
      exact lookupField_parts_none
        (ffu_lookup_other _ _ _ (by decide) (by decide) (by decide) (by decide))
        (fileUpdates_media_none hfu hm hresp1)
        (srtUpdate_lookup_other _ _ _ _ (by decide))
    have haudio : audioFile = none → lookupField
        (formFieldUpdates dirty values ++ fu ++
          srtUpdate srtFile srtState loaded.srtContent) .audioUrl = none := by
      intro ha
      exact lookupField_parts_none
        (ffu_lookup_other _ _ _ (by decide) (by decide) (by decide) (by decide))
        (fileUpdates_audio_none hfu ha hresp2)
        (srtUpdate_lookup_other _ _ _ _ (by decide))
    refine ⟨hmedia, haudio, ?_, ?_, ?_, ?_, ?_, ?_⟩
    · intro hd
      exact lookupField_parts_none (ffu_lookup_name _ _ hd)
        (fileUpdates_lookup_other hfu _ (by decide) (by decide))
        (srtUpdate_lookup_other _ _ _ _ (by decide))
    · intro hd
      exact lookupField_parts_none (ffu_lookup_template _ _ hd)
        (fileUpdates_lookup_other hfu _ (by decide) (by decide))
        (srtUpdate_lookup_other _ _ _ _ (by decide))
    · intro hd
      exact lookupField_parts_none (ffu_lookup_enabled _ _ hd)
        (fileUpdates_lookup_other hfu _ (by decide) (by decide))
        (srtUpdate_lookup_other _ _ _ _ (by decide))
    · intro hd
      exact lookupField_parts_none (ffu_lookup_mute _ _ hd)
        (fileUpdates_lookup_other hfu _ (by decide) (by decide))
        (srtUpdate_lookup_other _ _ _ _ (by decide))
    · intro hm rec
      rw [mergeFields, hmedia hm]
    · intro ha rec
      rw [mergeFields, haudio ha]

/-- C2 witness: an update with only the name dirty, no new files, a changed
textarea text and an idle endpoint response binds neither URL key nor any
clean form field. -/
theorem pageUpdate_frame_minimal_witness :
    pageUpdates .firebase ⟨"New".data, "template1".data, false, false⟩
        ⟨true, false, false, false⟩
        ⟨"Old".data, "template1".data, false, false, [], [], []⟩
        none none none "text".data [] [] ⟨true, none, none, none⟩
      = .ok [(.name, .str "New".data), (.srtContent, .str "text".data)] ∧
    (lookupField [(.name, .str "New".data), (.srtContent, .str "text".data)]
        FieldKey.mediaUrl = none ∧
      lookupField [(.name, .str "New".data), (.srtContent, .str "text".data)]
        FieldKey.audioUrl = none ∧
      lookupField [(.name, .str "New".data), (.srtContent, .str "text".data)]
        FieldKey.template = none ∧
      lookupField [(.name, .str "New".data), (.srtContent, .str "text".data)]
        FieldKey.enabled = none ∧
      lookupField [(.name, .str "New".data), (.srtContent, .str "text".data)]
        FieldKey.mute = none) := by
  have hpu : pageUpdates .firebase ⟨"New".data, "template1".data, false, false⟩
      ⟨true, false, false, false⟩
      ⟨"Old".data, "template1".data, false, false, [], [], []⟩
      none none none "text".data [] [] ⟨true, none, none, none⟩
      = .ok [(.name, .str "New".data), (.srtContent, .str "text".data)] := by rfl
  have h := pageUpdate_frame_minimal .firebase
    ⟨"New".data, "template1".data, false, false⟩ ⟨true, false, false, false⟩
    ⟨"Old".data, "template1".data, false, false, [], [], []⟩
    none none none "text".data [] [] ⟨true, none, none, none⟩
    [(.name, .str "New".data), (.srtContent, .str "text".data)]
    (fun h' => absurd rfl h') (fun h' => absurd rfl h') hpu
  exact ⟨hpu, h.1 rfl, h.2.1 rfl, h.2.2.2.1 rfl, h.2.2.2.2.1 rfl, h.2.2.2.2.2.1 rfl⟩

/-- C5: in the `page.tsx` edit workflow, when only the `enabled` flag is
dirty, no new file is chosen and the subtitle text is left exactly as loaded
(the loaded `srtContent` being watermark-free, as the data model guarantees
for stored records), the map sent to the store is exactly
`[(enabled, value)]`. -/
theorem enabled_only_update_minimal (provider : StorageProvider)
    (values : FormData) (loaded : DbData)
    (srtState mediaDl audioDl : Text) (resp : UploadResponse)
    (hsrt : srtState = loaded.srtContent)
    (hinv : ¬ watermark <:+: loaded.srtContent) :
    pageOnUpdate provider values ⟨false, false, true, false⟩ loaded
      none none none srtState mediaDl audioDl resp
      = .wrote [(.enabled, .bool values.enabled)] := by
  subst hsrt
  have hfix : stripWatermark loaded.srtContent = loaded.srtContent :=
    replaceAll_eq_self_of_not_sub loaded.srtContent.length _ le_rfl hinv
  have hffu : formFieldUpdates ⟨false, false, true, false⟩ values
      = [(.enabled, .bool values.enabled)] := by
    simp [formFieldUpdates, optField]
  have hsrtu : srtUpdate none loaded.srtContent loaded.srtContent = [] := by
    simp [srtUpdate, pageFinalSrt, optField, hfix]
  have hfu : fileUpdates provider none none mediaDl audioDl resp = .ok [] := by
    cases provider <;> simp [fileUpdates, optField]
  simp [pageOnUpdate, pageUpdates, hfu, hffu, hsrtu]

/-- C5 witness: toggling only `enabled` on a loaded record with subtitle text
`"hello"` sends exactly the one-entry map. -/
theorem enabled_only_update_minimal_witness :
    (("hello".data : Text) = ("hello".data : Text)) ∧
    (¬ watermark <:+: ("hello".data : Text)) ∧
    pageOnUpdate .firebase ⟨"Promo".data, "template1".data, true, false⟩
        ⟨false, false, true, false⟩
        ⟨"Promo".data, "template1".data, false, false, [], [], "hello".data⟩
        none none none "hello".data [] [] ⟨true, none, none, none⟩
      = .wrote [(.enabled, .bool true)] :=
  ⟨rfl, by decide,
   enabled_only_update_minimal .firebase ⟨"Promo".data, "template1".data, true, false⟩
     ⟨"Promo".data, "template1".data, false, false, [], [], "hello".data⟩
     "hello".data [] [] ⟨true, none, none, none⟩ rfl (by decide)⟩

/-- C6: in the `page.tsx` edit workflow, submitting with nothing dirty, no new
files and the subtitle text exactly as loaded (the loaded `srtContent` being
watermark-free) issues no write — the record at the key is untouched — and
reports the "no changes" outcome. -/
theorem noop_update_skips_write (provider : StorageProvider)
    (values : FormData) (loaded : DbData)
    (srtState mediaDl audioDl : Text) (resp : UploadResponse)
    (store : Store) (id : Text)
    (hsrt : srtState = loaded.srtContent)
    (hinv : ¬ watermark <:+: loaded.srtContent) :
    pageOnUpdate provider values ⟨false, false, false, false⟩ loaded
      none none none srtState mediaDl audioDl resp = .noChanges ∧
    stepStore store id
      (pageOnUpdate provider values ⟨false, false, false, false⟩ loaded
        none none none srtState mediaDl audioDl resp) = store := by
  subst hsrt
  have hfix : stripWatermark loaded.srtContent = loaded.srtContent :=
    replaceAll_eq_self_of_not_sub loaded.srtContent.length _ le_rfl hinv
  have hffu : formFieldUpdates ⟨false, false, false, false⟩ values = [] := by
    simp [formFieldUpdates, optField]
  have hsrtu : srtUpdate none loaded.srtContent loaded.srtContent = [] := by
    simp [srtUpdate, pageFinalSrt, optField, hfix]
  have hfu : fileUpdates provider none none mediaDl audioDl resp = .ok [] := by
    cases provider <;> simp [fileUpdates, optField]
  have hmain : pageOnUpdate provider values ⟨false, false, false, false⟩ loaded
      none none none loaded.srtContent mediaDl audioDl resp = .noChanges := by
    simp [pageOnUpdate, pageUpdates, hfu, hffu, hsrtu]
  exact ⟨hmain, by rw [hmain]; rfl⟩

/-- C6 witness: a no-op submit on a loaded record with subtitle text
`"hello"` reports "no changes" and leaves the (empty) store untouched. -/
theorem noop_update_skips_write_witness :
    (("hello".data : Text) = ("hello".data : Text)) ∧
    (¬ watermark <:+: ("hello".data : Text)) ∧
    pageOnUpdate .custom ⟨"Promo".data, "template1".data, false, false⟩
        ⟨false, false, false, false⟩
        ⟨"Promo".data, "template1".data, false, false, [], [], "hello".data⟩
        none none none "hello".data [] [] ⟨true, none, none, none⟩
      = .noChanges ∧
    stepStore (fun _ => none) "abc".data
      (pageOnUpdate .custom ⟨"Promo".data, "template1".data, false, false⟩
        ⟨false, false, false, false⟩
        ⟨"Promo".data, "template1".data, false, false, [], [], "hello".data⟩
        none none none "hello".data [] [] ⟨true, none, none, none⟩)
      = (fun _ => none) := by
  have h := noop_update_skips_write .custom ⟨"Promo".data, "template1".data, false, false⟩
    ⟨"Promo".data, "template1".data, false, false, [], [], "hello".data⟩
    "hello".data [] [] ⟨true, none, none, none⟩ (fun _ => none) "abc".data
    rfl (by decide)
  exact ⟨rfl, by decide, h.1, h.2⟩
